import Mathlib

/-!
Verification of the CloudOps-Assistant chunk-and-retrieve pipeline.

This file gives a shallow embedding of the two source files
(`embeddings.py` and `app.py`) and proves or refutes the frozen claims
about them.  Text is modelled as `List Char`; Python string slicing,
`str.rfind`, `str.strip` and list indexing are embedded explicitly.
-/

namespace CloudOps

/-- ASCII whitespace, matching the characters removed by Python
`str.strip()` on the ASCII documents of this repository. -/
def is_space (c : Char) : Bool :=
  c == ' ' || c == '\t' || c == '\n' || c == '\r' || c == '\x0b' || c == '\x0c'

/-- Python `s.strip()`: drop whitespace from both ends. -/
def strip_chars (l : List Char) : List Char :=
  ((l.dropWhile is_space).reverse.dropWhile is_space).reverse

/-- Python slice `text[s:e]` for `0 ≤ s ≤ e` (clamped like Python). -/
def pyslice (l : List Char) (s e : Nat) : List Char :=
  (l.drop s).take (e - s)

/-- Does `pat` occur at the head of `l`? (Python substring match at one
position.) -/
def headMatches : List Char → List Char → Bool
  | [], _ => true
  | _ :: _, [] => false
  | p :: ps, c :: cs => p == c && headMatches ps cs

/-- Helper for `rfind`: try positions `n, n-1, …, 0` and return the first
(that is, the highest) position where `pat` occurs. -/
def rfindAux (hay pat : List Char) : Nat → Option Nat
  | 0 => if headMatches pat hay then some 0 else none
  | n + 1 =>
    if headMatches pat (hay.drop (n + 1)) then some (n + 1)
    else rfindAux hay pat n

/-- Python `hay.rfind(pat)`: the highest index at which `pat` occurs in
`hay`, or `none` where Python returns `-1`. -/
def rfind (hay pat : List Char) : Option Nat :=
  rfindAux hay pat hay.length

/-- The delimiter preference list from `chunk_document`
(`['. ', '\n\n', '\n', '. ']`, including the duplicated last entry). -/
def sentence_delims : List (List Char) :=
  [['.', ' '], ['\n', '\n'], ['\n'], ['.', ' ']]

/-- The delimiter scan of `chunk_document` (embeddings.py lines 78-83):
for each delimiter in order, take the last occurrence in the current
window and, if its position exceeds `start + chunk_size // 2`, return the
adjusted window length `last_delim + len(delimiter)`. -/
def find_boundary (chunk : List Char) (start cs : Nat) :
    List (List Char) → Option Nat
  | [] => none
  | d :: ds =>
    match rfind chunk d with
    | some i =>
      if start + cs / 2 < i then some (i + d.length)
      else find_boundary chunk start cs ds
    | none => find_boundary chunk start cs ds

/-- The window end used for one iteration of the `chunk_document` loop:
`end = min(start + chunk_size, len(text))`, then the delimiter
adjustment `end = start + last_delim + len(delimiter)` when the scan
fires (embeddings.py lines 72-83). -/
def window_end (text : List Char) (cs start : Nat) : Nat :=
  let end0 := min (start + cs) text.length
  if end0 < text.length then
    match find_boundary (pyslice text start end0) start cs sentence_delims with
    | some L => start + L
    | none => end0
  else end0

/-- The start-offset update of `chunk_document` (embeddings.py line 86):
`start = max(end - overlap, end) if end < len(text) else end`. -/
def next_start (textLen endPos ov : Nat) : Nat :=
  if endPos < textLen then max (endPos - ov) endPos else endPos

/-- The `while start < len(text)` loop of `chunk_document`, written with
explicit fuel (the loop has no a-priori termination proof for
`chunk_size = 0`; fuel `len(text) + 1` is shown sufficient when
`chunk_size > 0`). -/
def chunk_loop (text : List Char) (cs ov : Nat) : Nat → Nat → List (List Char)
  | 0, _ => []
  | fuel + 1, start =>
    if start < text.length then
      strip_chars (pyslice text start (window_end text cs start)) ::
        chunk_loop text cs ov fuel
          (next_start text.length (window_end text cs start) ov)
    else []

/-- `IndexBuilder.chunk_document` (embeddings.py lines 63-91). -/
def chunk_document (text : List Char) (cs ov : Nat) : List (List Char) :=
  if text.length ≤ cs then [text]
  else chunk_loop text cs ov (text.length + 1) 0

/-! ## Data model shared by the index builder and the app

Embedding vectors are modelled as integer vectors (`List Int`): the
claims under verification concern counts, positions and index bounds,
never floating-point values, and squared L2 distance on integer vectors
is exact. -/

abbrev Emb := List Int

/-- One entry of the pickled chunk list built in `build_index`
(embeddings.py lines 112-119). -/
structure ChunkMeta where
  source_file : List Char
  doc_index : Nat
  chunk_index : Nat
  chunk_id : List Char
  content : List Char
  char_count : Nat
deriving DecidableEq

/-- A FAISS `IndexFlatL2`: a dimension and the ordered list of stored
vectors. -/
structure FaissFlatIndex where
  d : Nat
  vectors : List Emb
deriving DecidableEq

/-- `index.ntotal`. -/
def FaissFlatIndex.ntotal (ix : FaissFlatIndex) : Nat := ix.vectors.length

/-- The metadata record written by `build_index`
(embeddings.py lines 163-176). -/
structure Metadata where
  created_at : List Char
  model_name : List Char
  total_documents : Nat
  total_chunks : Nat
  embedding_dimension : Nat
  chunk_size : Nat
  chunk_overlap : Nat
  source_files : List (List Char)
  index_ntotal : Nat
  index_d : Nat
deriving DecidableEq

/-! ## Index builder (embeddings.py `build_index`) -/

/-- One chunk-metadata dict as appended in the builder loop
(embeddings.py lines 112-119). -/
def mk_chunk_meta (source : List Char) (doc_idx chunk_idx : Nat)
    (chunk : List Char) : ChunkMeta :=
  { source_file := source
    doc_index := doc_idx
    chunk_index := chunk_idx
    chunk_id := source ++ ("_chunk_").toList ++ (Nat.repr (chunk_idx + 1)).toList
    content := chunk
    char_count := chunk.length }

/-- The double loop of `build_index` (embeddings.py lines 106-119): for
each (document, source) pair, chunk it and record, in order, each chunk
together with its metadata dict.  `all_chunks` is the first projection
and `chunk_metadata` the second. -/
def build_pairs (docSrcs : List (List Char × List Char)) (cs ov : Nat) :
    List (List Char × ChunkMeta) :=
  (docSrcs.enum.map (fun p =>
    ((chunk_document p.2.1 cs ov).enum.map
      (fun q => (q.2, mk_chunk_meta p.2.2 p.1 q.1 q.2))))).flatten

/-- The persisted output of a successful `build_index` run: the FAISS
index (`faiss.write_index`), the pickled chunk list and the metadata
JSON. -/
structure BuildResult where
  index : FaissFlatIndex
  chunk_metadata : List ChunkMeta
  metadata : Metadata
deriving DecidableEq

/-- The `all_chunks` list of `build_index`. -/
def build_all_chunks (documents sources : List (List Char)) (cs ov : Nat) :
    List (List Char) :=
  (build_pairs (documents.zip sources) cs ov).map Prod.fst

/-- The `chunk_metadata` list of `build_index`. -/
def build_chunk_metadata (documents sources : List (List Char)) (cs ov : Nat) :
    List ChunkMeta :=
  (build_pairs (documents.zip sources) cs ov).map Prod.snd

/-- `IndexBuilder.build_index` (embeddings.py lines 93-199).  The I/O
boundary is made explicit: `enc` is the sentence-transformers model
(`model.encode` maps each chunk to one vector, with `dim` the model's
output dimension), `documents`/`sources` are the lists returned by
`read_documents`, and `now` is the build timestamp.  Returns `none`
exactly where the Python returns `False` (no documents, or zero
chunks). -/
def build_index (enc : List Char → Emb) (documents sources : List (List Char))
    (now : List Char) (dim : Nat) (cs ov : Nat) : Option BuildResult :=
  if documents.isEmpty then none
  else if (build_all_chunks documents sources cs ov).length = 0 then none
  else
    some
      { index :=
          { d := dim
            vectors := (build_all_chunks documents sources cs ov).map enc }
        chunk_metadata := build_chunk_metadata documents sources cs ov
        metadata :=
          { created_at := now
            model_name := ("sentence-transformers/all-MiniLM-L6-v2").toList
            total_documents := documents.length
            total_chunks := (build_all_chunks documents sources cs ov).length
            embedding_dimension := dim
            chunk_size := cs
            chunk_overlap := ov
            source_files := sources
            index_ntotal := ((build_all_chunks documents sources cs ov).map enc).length
            index_d := dim } }

/-! ## FAISS nearest-neighbor search

Model of `IndexFlatL2.search` for a single query: an exact scan that
returns the `k` indices of smallest squared-L2 distance (as 64-bit-style
signed integers), padding with the sentinel `-1` when `k` exceeds
`ntotal`. -/

/-- Exact squared L2 distance between two integer vectors. -/
def sqL2 (q v : Emb) : Int :=
  ((q.zip v).map (fun p => (p.1 - p.2) * (p.1 - p.2))).sum

/-- Insert a vector index into a list of indices sorted by distance. -/
def insertByDist (dist : Nat → Int) (x : Nat) : List Nat → List Nat
  | [] => [x]
  | y :: ys => if dist x ≤ dist y then x :: y :: ys else y :: insertByDist dist x ys

/-- Insertion sort of vector indices by distance. -/
def sortByDist (dist : Nat → Int) : List Nat → List Nat
  | [] => []
  | x :: xs => insertByDist dist x (sortByDist dist xs)

/-- `index.search(q, k)` (the single row of returned indices): the `k`
nearest stored vectors, `-1`-padded when `k > ntotal`. -/
def faiss_search (ix : FaissFlatIndex) (q : Emb) (k : Nat) : List Int :=
  let base := ((sortByDist (fun i => sqL2 q ((ix.vectors.get? i).getD []))
      (List.range ix.ntotal)).take k).map Int.ofNat
  base ++ List.replicate (k - base.length) (-1)

/-! ## The Streamlit app (app.py `CloudOpsAssistant`) -/

/-- The fields set in `CloudOpsAssistant.__init__` (app.py lines 36-42).
The embedding model is the query encoder returned by
`get_embedding_model`, `none` when sentence-transformers is not
installed. -/
structure Assistant where
  index : Option FaissFlatIndex
  chunks : Option (List ChunkMeta)
  metadata : Option Metadata
  embedding_model : Option (List Char → Emb)

/-- The three persisted artifacts as found on disk: `none` models a
missing file, `some` an existing file together with its parsed
content. -/
structure FileSystem where
  faiss_index_file : Option FaissFlatIndex
  chunks_file : Option (List ChunkMeta)
  metadata_file : Option Metadata

/-- The outcome of `_auto_load_database`: its return value, the assistant
state after the call, and the messages shown (`st.error` / `st.info`). -/
structure LoadOutcome where
  ok : Bool
  state : Assistant
  messages : List (List Char)

/-- `st.error` text of app.py line 50. -/
def vector_db_not_found_error : List Char :=
  ("Vector database not found! Please run the index builder first.").toList

/-- `st.info` text of app.py line 51. -/
def run_index_builder_info : List Char :=
  ("Run: `python build_index.py` to create the knowledge base").toList

/-- `st.error` text of app.py line 202 (shown by `main` when the index is
not loaded, before `st.stop()`). -/
def knowledge_base_not_loaded_error : List Char :=
  (" Knowledge base not loaded!").toList

/-- `st.warning` text of app.py line 247 (shown by `main` on an empty
search result; emoji prefix omitted). -/
def no_results_warning : List Char :=
  ("No relevant information found in the knowledge base.").toList

/-- `CloudOpsAssistant._auto_load_database` (app.py lines 44-66): require
all three files to exist, else report the missing database and return
`False` without touching the fields; when all exist, load all three.
(The broad `except` branch for unreadable existing files is outside the
absence claim modelled here: reads of existing files are given by the
`FileSystem` as already parsed.) -/
def auto_load_database (fs : FileSystem) (a : Assistant) : LoadOutcome :=
  match fs.faiss_index_file, fs.chunks_file, fs.metadata_file with
  | some ix, some cs, some md =>
    { ok := true
      state := { a with index := some ix, chunks := some cs, metadata := some md }
      messages := [] }
  | _, _, _ =>
    { ok := false
      state := a
      messages := [vector_db_not_found_error, run_index_builder_info] }

/-- Python list indexing `l[i]` for an `int64` index: non-negative
indices are positional, negative indices wrap from the end, out-of-range
raises (modelled as `none`). -/
def pyIndex (l : List ChunkMeta) (i : Int) : Option ChunkMeta :=
  if 0 ≤ i then l.get? i.toNat
  else if -(l.length : Int) ≤ i then l.get? (l.length - (-i).toNat)
  else none

/-- `CloudOpsAssistant.search_knowledge_base` (app.py lines 84-114):
guard on a loaded index and a non-empty chunk list (`not self.chunks` is
Python falsiness), return `[]` when no embedding model is available,
otherwise embed the query, run the FAISS search with
`k = min(top_k, len(self.chunks))` and map each returned index `idx`
with `idx < len(self.chunks)` back to its chunk record.  The returned
records carry the fields (`source_file`, `content`) used downstream; the
floating-point `similarity_score` display field is not modelled. -/
def search_knowledge_base (a : Assistant) (query : List Char) (top_k : Nat) :
    List ChunkMeta :=
  match a.index, a.chunks with
  | some ix, some cs =>
    if cs.isEmpty then []
    else
      match a.embedding_model with
      | none => []
      | some model =>
        let idxs := faiss_search ix (model query) (min top_k cs.length)
        idxs.filterMap (fun idx =>
          if idx < (cs.length : Int) then pyIndex cs idx else none)
  | _, _ => []

/-! ## Answer synthesis (app.py `generate_cloudops_answer`) -/

/-- The generation collaborator's observed outcome: a 200 response with a
parsed answer, a non-200 status, `requests.exceptions.Timeout`, or any
other exception. -/
inductive CollabResponse where
  | success (answer : List Char)
  | httpError (status : Nat)
  | timeoutErr
  | requestErr (msg : List Char)
deriving DecidableEq

/-- The failure cases of `CollabResponse` (everything except a parsed 200
response). -/
def is_api_failure : CollabResponse → Bool
  | .success _ => false
  | _ => true

/-- Python `", ".join(sources)` (app.py line 179). -/
def join_sources : List (List Char) → List Char
  | [] => []
  | [s] => s
  | s :: rest => s ++ (", ").toList ++ join_sources rest

/-- The no-context fallback text of app.py line 175. -/
def no_answer_text (query : List Char) : List Char :=
  ("I found information related to '").toList ++ query ++
    ("' but couldn't generate a comprehensive answer. Please check the retrieved context below for relevant details.").toList

/-- `CloudOpsAssistant._generate_fallback_answer` (app.py lines 172-183). -/
def generate_fallback_answer (query : List Char)
    (context_chunks : List ChunkMeta) : List Char :=
  if context_chunks.isEmpty then no_answer_text query
  else
    ("Based on the available CloudOps documentation, I found relevant information in: ").toList ++
      join_sources (context_chunks.map (fun c => c.source_file)) ++
      (".\n\nFor detailed information about '").toList ++ query ++
      ("', please refer to the context sections below. The documentation covers practical aspects of Cloud & DevOps engineering including Kubernetes, Docker, infrastructure management, and best practices.\n\n*Note: Full AI response temporarily unavailable - showing context-based results.*").toList

/-- `CloudOpsAssistant.generate_cloudops_answer` (app.py lines 116-170):
without an API key it reports and returns `None`; with a key, a parsed
200 response is returned as the answer, and every failure (non-200
status, timeout, any other exception) is recovered by
`_generate_fallback_answer` — the function is total, so no exception
reaches the caller. -/
def generate_cloudops_answer (api_key : Option (List Char)) (query : List Char)
    (context_chunks : List ChunkMeta) (resp : CollabResponse) :
    Option (List Char) :=
  match api_key with
  | none => none
  | some _ =>
    match resp with
    | .success answer => some answer
    | .httpError _ => some (generate_fallback_answer query context_chunks)
    | .timeoutErr => some (generate_fallback_answer query context_chunks)
    | .requestErr _ => some (generate_fallback_answer query context_chunks)

/-! ## Concrete build run used to witness the index invariant -/

/-- A concrete embedding model for the witness run. -/
def demo_enc : List Char → Emb := fun c => [(c.length : Int)]

/-- A concrete one-document build. -/
def demo_build : Option BuildResult :=
  build_index demo_enc [("hello").toList] [("a.md").toList]
    (("2026-10-12").toList) 1 800 150

/-- Default used only to extract the value of the successful
`demo_build`. -/
def demo_build_junk : BuildResult :=
  ⟨⟨0, []⟩, [], ⟨[], [], 0, 0, 0, 0, 0, [], 0, 0⟩⟩

/-- The result of the concrete build run. -/
def demo_build_result : BuildResult := demo_build.getD demo_build_junk

theorem headMatches_length : ∀ (pat l : List Char),
    headMatches pat l = true → pat.length ≤ l.length
  | [], _, _ => Nat.zero_le _
  | _ :: _, [], h => by simp [headMatches] at h
  | p :: ps, c :: cs, h => by
    simp only [headMatches, Bool.and_eq_true, beq_iff_eq] at h
    simpa using Nat.succ_le_succ (headMatches_length ps cs h.2)

theorem rfindAux_spec (hay pat : List Char) :
    ∀ (n i : Nat), rfindAux hay pat n = some i →
      headMatches pat (hay.drop i) = true := by
  intro n
  induction n with
  | zero =>
    intro i h
    unfold rfindAux at h
    split at h
    · next hm => cases h; simpa using hm
    · exact absurd h (by simp)
  | succ n ih =>
    intro i h
    unfold rfindAux at h
    split at h
    · next hm => cases h; exact hm
    · exact ih i h

theorem rfind_bound {hay pat : List Char} {i : Nat}
    (h : rfind hay pat = some i) (hp : pat ≠ []) :
    i + pat.length ≤ hay.length := by
  have hm := rfindAux_spec hay pat hay.length i h
  match pat, hp with
  | p :: ps, _ =>
    have hlen := headMatches_length _ _ hm
    have hne : hay.drop i ≠ [] := by
      intro hnil
      rw [hnil] at hm
      simp [headMatches] at hm
    have hil : i < hay.length := by
      by_contra hge
      exact hne (List.drop_eq_nil_of_le (Nat.le_of_not_lt hge))
    rw [List.length_drop] at hlen
    have hpl : (p :: ps).length = ps.length + 1 := by simp
    omega

theorem sentence_delims_ne_nil : ∀ d ∈ sentence_delims, d ≠ [] := by decide

theorem find_boundary_some (chunk : List Char) (start cs : Nat) :
    ∀ (ds : List (List Char)) (L : Nat),
      find_boundary chunk start cs ds = some L → (∀ d ∈ ds, d ≠ []) →
        1 ≤ L ∧ L ≤ chunk.length := by
  intro ds
  induction ds with
  | nil => intro L h _; simp [find_boundary] at h
  | cons d ds ih =>
    intro L h hne
    unfold find_boundary at h
    cases hr : rfind chunk d with
    | none =>
      rw [hr] at h
      exact ih L h (fun x hx => hne x (List.mem_cons_of_mem _ hx))
    | some i =>
      rw [hr] at h
      dsimp only at h
      by_cases hcond : start + cs / 2 < i
      · rw [if_pos hcond] at h
        injection h with hL
        have hd : d ≠ [] := hne d (List.mem_cons_self _ _)
        have hb := rfind_bound hr hd
        have hdl : 1 ≤ d.length := by
          cases d with
          | nil => exact absurd rfl hd
          | cons x xs => simp
        exact ⟨by omega, by omega⟩
      · rw [if_neg hcond] at h
        exact ih L h (fun x hx => hne x (List.mem_cons_of_mem _ hx))

theorem length_pyslice (l : List Char) (s e : Nat) :
    (pyslice l s e).length = min (e - s) (l.length - s) := by
  simp [pyslice]

theorem window_end_bounds (text : List Char) (cs start : Nat)
    (hcs : 0 < cs) (hs : start < text.length) :
    start < window_end text cs start ∧ window_end text cs start ≤ text.length ∧
      window_end text cs start - start ≤ cs := by
  simp only [window_end]
  split
  · cases hfb : find_boundary (pyslice text start (min (start + cs) text.length))
        start cs sentence_delims with
    | some L =>
      simp only [hfb]
      have hb := find_boundary_some _ start cs sentence_delims L hfb
        sentence_delims_ne_nil
      rw [length_pyslice] at hb
      omega
    | none => simp only [hfb]; omega
  · omega

theorem next_start_eq (n e ov : Nat) : next_start n e ov = e := by
  unfold next_start
  split
  · exact Nat.max_eq_right (Nat.sub_le _ _)
  · rfl

theorem chunk_loop_stops (text : List Char) (cs ov : Nat) {s : Nat}
    (h : text.length ≤ s) : ∀ f, chunk_loop text cs ov f s = [] := by
  intro f
  cases f with
  | zero => rfl
  | succ f => simp [chunk_loop, Nat.not_lt.2 h]

theorem chunk_loop_fuel (text : List Char) (cs ov : Nat) (hcs : 0 < cs) :
    ∀ f₁ s f₂, text.length - s ≤ f₁ → text.length - s ≤ f₂ →
      chunk_loop text cs ov f₁ s = chunk_loop text cs ov f₂ s := by
  intro f₁
  induction f₁ with
  | zero =>
    intro s f₂ h1 _
    have hs : text.length ≤ s := by omega
    rw [chunk_loop_stops text cs ov hs, chunk_loop_stops text cs ov hs]
  | succ f ih =>
    intro s f₂ h1 h2
    by_cases hs : s < text.length
    · obtain ⟨f₂', rfl⟩ : ∃ k, f₂ = k + 1 := by
        cases f₂ with
        | zero => omega
        | succ k => exact ⟨k, rfl⟩
      have hw := window_end_bounds text cs s hcs hs
      simp only [chunk_loop, if_pos hs]
      rw [next_start_eq]
      have := ih (window_end text cs s) f₂' (by omega) (by omega)
      rw [this]
    · have hs' := Nat.le_of_not_lt hs
      rw [chunk_loop_stops text cs ov hs', chunk_loop_stops text cs ov hs']

theorem chunk_loop_shape (text : List Char) (cs ov : Nat) (hcs : 0 < cs) :
    ∀ f s c, c ∈ chunk_loop text cs ov f s →
      ∃ a b, a < b ∧ b ≤ text.length ∧ b - a ≤ cs ∧
        c = strip_chars (pyslice text a b) := by
  intro f
  induction f with
  | zero => intro s c hc; simp [chunk_loop] at hc
  | succ f ih =>
    intro s c hc
    by_cases hs : s < text.length
    · simp only [chunk_loop, if_pos hs, List.mem_cons] at hc
      rcases hc with rfl | hc
      · have hw := window_end_bounds text cs s hcs hs
        exact ⟨s, window_end text cs s, hw.1, hw.2.1, hw.2.2, rfl⟩
      · exact ih _ c hc
    · rw [chunk_loop_stops text cs ov (Nat.le_of_not_lt hs)] at hc
      simp at hc

theorem length_dropWhile_le (p : Char → Bool) :
    ∀ l : List Char, (l.dropWhile p).length ≤ l.length := by
  intro l
  induction l with
  | nil => simp
  | cons c l ih =>
    simp only [List.dropWhile]
    split
    · exact Nat.le_succ_of_le ih
    · simp

theorem strip_length_le (l : List Char) : (strip_chars l).length ≤ l.length := by
  unfold strip_chars
  have h1 := length_dropWhile_le is_space l
  have h2 := length_dropWhile_le is_space (l.dropWhile is_space).reverse
  simp only [List.length_reverse] at *
  omega

theorem strip_ne_nil {l : List Char} {x : Char} (hx : x ∈ l)
    (hns : is_space x = false) : strip_chars l ≠ [] := by
  intro h
  unfold strip_chars at h
  rw [List.reverse_eq_nil_iff, List.dropWhile_eq_nil_iff] at h
  have hall : ∀ y ∈ l.dropWhile is_space, is_space y = true := by
    intro y hy
    exact h y (List.mem_reverse.2 hy)
  have hmem : x ∈ l.takeWhile is_space ++ l.dropWhile is_space := by
    rw [List.takeWhile_append_dropWhile]; exact hx
  rcases List.mem_append.1 hmem with h1 | h2
  · rw [List.mem_takeWhile_imp h1] at hns; cases hns
  · rw [hall x h2] at hns; cases hns

/-- C1 (refuting evaluation): on the document "abcdefghij" with
`chunk_size = 4` and `overlap = 2`, `chunk_document` produces the disjoint
chunks "abcd", "efgh", "ij": the start update
`max(end - overlap, end)` (line 86) evaluates to `end` (here 4), not to
`end - overlap` (2), so consecutive chunks never share an overlapping
span. -/
theorem c1_overlap_ignored :
    chunk_document (("abcdefghij").toList) 4 2 =
        [("abcd").toList, ("efgh").toList, ("ij").toList] ∧
      next_start 10 4 2 = 4 := by decide

/-- C3 (counterexample): the document "aa  " has length 4 > chunk_size 2,
yet `chunk_document` emits the empty chunk `[]` (character count 0) for
its all-whitespace final window. -/
theorem c3_empty_chunk_counterexample :
    2 < (("aa  ").toList).length ∧ [] ∈ chunk_document (("aa  ").toList) 2 0 := by
  decide

/-- C3 (amended): for every document longer than `chunk_size` (> 0),
every chunk of `chunk_document` is the whitespace-strip of a nonempty
window of the text; a chunk whose window contains a non-whitespace
character has character count > 0 (an all-whitespace window yields the
empty chunk, as the counterexample shows). -/
theorem c3_chunks_are_stripped_windows (text : List Char) (cs ov : Nat)
    (hcs : 0 < cs) (hlen : cs < text.length) :
    ∀ c ∈ chunk_document text cs ov,
      ∃ a b, a < b ∧ b ≤ text.length ∧ c = strip_chars (pyslice text a b) ∧
        ((∃ x ∈ pyslice text a b, is_space x = false) → 0 < c.length) := by
  intro c hc
  unfold chunk_document at hc
  rw [if_neg (by omega)] at hc
  obtain ⟨a, b, hab, hbl, _, rfl⟩ := chunk_loop_shape text cs ov hcs _ _ c hc
  refine ⟨a, b, hab, hbl, rfl, ?_⟩
  rintro ⟨x, hx, hns⟩
  exact List.length_pos.2 (strip_ne_nil hx hns)

theorem c3_chunks_are_stripped_windows_witness :
    ∃ a b, a < b ∧ b ≤ (("abcdefghij").toList).length ∧
      ("abcd").toList = strip_chars (pyslice (("abcdefghij").toList) a b) ∧
      ((∃ x ∈ pyslice (("abcdefghij").toList) a b, is_space x = false) →
        0 < (("abcd").toList).length) :=
  c3_chunks_are_stripped_windows (("abcdefghij").toList) 4 2 (by decide)
    (by decide) (("abcd").toList) (by decide)

/-- C4 (refuting evaluation): in the document
"aaaaaaaaaa" ++ "bbbbbbbb\nbbb" with `chunk_size = 10`, the second window
`text[10:20] = "bbbbbbbb\nb"` contains a newline at relative position 8,
past the window midpoint (10 / 2 = 5), yet no boundary adjustment is
applied: the code compares the window-relative `rfind` position against
`start + chunk_size // 2 = 15`, so the adjustment depends on the
window's absolute start offset. -/
theorem c4_boundary_adjustment_start_bug :
    chunk_document (("aaaaaaaaaabbbbbbbb\nbbb").toList) 10 0 =
        [("aaaaaaaaaa").toList, ("bbbbbbbb\nb").toList, ("bb").toList] ∧
      rfind (("bbbbbbbb\nb").toList) ['\n'] = some 8 ∧ 10 / 2 < 8 := by
  decide

/-- C6: for every document and parameters `chunk_size > 0`, `overlap ≥ 0`,
every chunk returned by `chunk_document` has length at most `chunk_size`
(in particular every non-final chunk, as the claim states); the
delimiter-boundary adjustment never extends a chunk beyond `chunk_size`
characters. -/
theorem c6_chunk_length_le_chunk_size (text : List Char) (cs ov : Nat)
    (hcs : 0 < cs) : ∀ c ∈ chunk_document text cs ov, c.length ≤ cs := by
  intro c hc
  unfold chunk_document at hc
  split at hc
  · next hle =>
    rw [List.mem_singleton] at hc
    subst hc
    exact hle
  · obtain ⟨a, b, hab, hbl, hba, rfl⟩ := chunk_loop_shape text cs ov hcs _ _ c hc
    have h1 := strip_length_le (pyslice text a b)
    have h2 := length_pyslice text a b
    omega

theorem c6_chunk_length_le_chunk_size_witness :
    (("abcd").toList).length ≤ 4 :=
  c6_chunk_length_le_chunk_size (("abcdefghij").toList) 4 2 (by decide)
    (("abcd").toList) (by decide)

/-- C7: for `chunk_size > 0` and `0 ≤ overlap < chunk_size` the chunking
loop terminates with a finite chunk list: the loop result is independent
of the fuel once the fuel covers the remaining text (so the `while` loop
finishes within `len(text)` iterations), because the running start
offset strictly increases on every iteration while it is below the text
length. -/
theorem c7_chunking_terminates (text : List Char) (cs ov : Nat)
    (hcs : 0 < cs) (hov : ov < cs) :
    (∀ f₁ f₂ s, text.length - s ≤ f₁ → text.length - s ≤ f₂ →
        chunk_loop text cs ov f₁ s = chunk_loop text cs ov f₂ s) ∧
      ∀ s, s < text.length →
        s < next_start text.length (window_end text cs s) ov := by
  constructor
  · intro f₁ f₂ s h1 h2
    exact chunk_loop_fuel text cs ov hcs f₁ s f₂ h1 h2
  · intro s hs
    rw [next_start_eq]
    exact (window_end_bounds text cs s hcs hs).1

theorem c7_chunking_terminates_witness :
    0 < next_start (("abcdefghij").toList).length
        (window_end (("abcdefghij").toList) 4 0) 2 :=
  (c7_chunking_terminates (("abcdefghij").toList) 4 2 (by decide)
    (by decide)).2 0 (by decide)

/-! ## Lemmas about the build pipeline -/

theorem build_pairs_content (ds : List (List Char × List Char)) (cs ov : Nat) :
    ∀ p ∈ build_pairs ds cs ov, p.2.content = p.1 := by
  intro p hp
  unfold build_pairs at hp
  rw [List.mem_flatten] at hp
  obtain ⟨inner, hin, hpin⟩ := hp
  rw [List.mem_map] at hin
  obtain ⟨q, _, rfl⟩ := hin
  rw [List.mem_map] at hpin
  obtain ⟨r, _, rfl⟩ := hpin
  rfl

theorem build_pairs_length (ds : List (List Char × List Char)) (cs ov : Nat) :
    (build_pairs ds cs ov).length =
      (ds.map (fun p => (chunk_document p.1 cs ov).length)).sum := by
  unfold build_pairs
  rw [List.length_flatten, List.map_map]
  have : ((fun l : List (List Char × ChunkMeta) => l.length) ∘ fun p =>
        (chunk_document p.2.1 cs ov).enum.map
          (fun q => (q.2, mk_chunk_meta p.2.2 p.1 q.1 q.2))) =
      (fun p : List Char × List Char => (chunk_document p.1 cs ov).length) ∘
        Prod.snd := by
    funext p
    simp
  rw [this, ← List.map_map, List.enum_map_snd]

/-! ## Lemmas about the FAISS search model -/

theorem mem_insertByDist (dist : Nat → Int) (x a : Nat) :
    ∀ l : List Nat, a ∈ insertByDist dist x l → a = x ∨ a ∈ l := by
  intro l
  induction l with
  | nil =>
    intro h
    rw [insertByDist, List.mem_singleton] at h
    exact Or.inl h
  | cons y ys ih =>
    intro h
    rw [insertByDist] at h
    split at h
    · rcases List.mem_cons.1 h with rfl | h2
      · exact Or.inl rfl
      · exact Or.inr h2
    · rcases List.mem_cons.1 h with rfl | h2
      · exact Or.inr (List.mem_cons_self _ _)
      · rcases ih h2 with h3 | h3
        · exact Or.inl h3
        · exact Or.inr (List.mem_cons_of_mem _ h3)

theorem mem_sortByDist (dist : Nat → Int) (a : Nat) :
    ∀ l : List Nat, a ∈ sortByDist dist l → a ∈ l := by
  intro l
  induction l with
  | nil => intro h; rw [sortByDist] at h; exact h
  | cons x xs ih =>
    intro h
    rw [sortByDist] at h
    rcases mem_insertByDist dist x a _ h with rfl | h2
    · exact List.mem_cons_self _ _
    · exact List.mem_cons_of_mem _ (ih h2)

theorem length_insertByDist (dist : Nat → Int) (x : Nat) :
    ∀ l : List Nat, (insertByDist dist x l).length = l.length + 1 := by
  intro l
  induction l with
  | nil => rfl
  | cons y ys ih =>
    rw [insertByDist]
    split
    · simp
    · simp [ih]

theorem length_sortByDist (dist : Nat → Int) :
    ∀ l : List Nat, (sortByDist dist l).length = l.length := by
  intro l
  induction l with
  | nil => rfl
  | cons x xs ih => rw [sortByDist, length_insertByDist, ih]; rfl

theorem faiss_search_length (ix : FaissFlatIndex) (q : Emb) (k : Nat) :
    (faiss_search ix q k).length = k := by
  simp only [faiss_search, List.length_append, List.length_replicate,
    List.length_map, List.length_take, length_sortByDist, List.length_range]
  omega

theorem faiss_search_mem {ix : FaissFlatIndex} {q : Emb} {k : Nat}
    (hk : k ≤ ix.ntotal) :
    ∀ idx ∈ faiss_search ix q k, 0 ≤ idx ∧ idx < (ix.ntotal : Int) := by
  intro idx hidx
  simp only [faiss_search] at hidx
  have hbl : (((sortByDist (fun i => sqL2 q ((ix.vectors.get? i).getD []))
      (List.range ix.ntotal)).take k).map Int.ofNat).length = k := by
    simp only [List.length_map, List.length_take, length_sortByDist,
      List.length_range]
    omega
  rw [hbl] at hidx
  rw [show k - k = 0 from by omega, List.replicate_zero, List.append_nil] at hidx
  rw [List.mem_map] at hidx
  obtain ⟨n, hn, rfl⟩ := hidx
  have hr : n ∈ List.range ix.ntotal :=
    mem_sortByDist _ n _ (List.mem_of_mem_take hn)
  rw [List.mem_range] at hr
  rw [Int.ofNat_eq_coe]
  constructor <;> omega

theorem length_filterMap_of_isSome {α β : Type} (f : α → Option β) :
    ∀ l : List α, (∀ x ∈ l, (f x).isSome) →
      (l.filterMap f).length = l.length := by
  intro l
  induction l with
  | nil => intro _; rfl
  | cons x xs ih =>
    intro h
    have hx := h x (List.mem_cons_self _ _)
    rw [List.filterMap_cons]
    cases hfx : f x with
    | none => rw [hfx] at hx; cases hx
    | some y =>
      simp only [List.length_cons]
      rw [ih (fun z hz => h z (List.mem_cons_of_mem _ hz))]

/-! ## Lemmas about the fallback answer -/

theorem join_sources_mem : ∀ (l : List (List Char)) (s : List Char), s ∈ l →
    ∃ u v, join_sources l = u ++ s ++ v := by
  intro l
  induction l with
  | nil => intro s hs; cases hs
  | cons a t ih =>
    intro s hs
    cases t with
    | nil =>
      rw [List.mem_singleton] at hs
      subst hs
      exact ⟨[], [], by simp [join_sources]⟩
    | cons b t2 =>
      rcases List.mem_cons.1 hs with rfl | hs2
      · exact ⟨[], (", ").toList ++ join_sources (b :: t2), by
          simp [join_sources]⟩
      · obtain ⟨u, v, huv⟩ := ih s hs2
        exact ⟨a ++ (", ").toList ++ u, v, by
          simp [join_sources, huv, List.append_assoc]⟩

theorem sub_append_left (t big s : List Char) (h : ∃ u v, big = u ++ s ++ v) :
    ∃ u v, t ++ big = u ++ s ++ v := by
  obtain ⟨u, v, rfl⟩ := h
  exact ⟨t ++ u, v, by simp [List.append_assoc]⟩

theorem sub_append_right (big t s : List Char) (h : ∃ u v, big = u ++ s ++ v) :
    ∃ u v, big ++ t = u ++ s ++ v := by
  obtain ⟨u, v, rfl⟩ := h
  exact ⟨u, v ++ t, by simp [List.append_assoc]⟩

/-! ## The remaining claims -/

/-- C2 (counterexample): a loaded assistant state whose chunk list
contains both query words, but with no embedding model available:
`search_knowledge_base` returns the empty result list instead of the
lexical-fallback ranking the claim describes (src/app.py lines 90-92
return `[]` as soon as `get_embedding_model()` yields `None`; no lexical
scoring exists in this file). -/
theorem c2_no_lexical_fallback_counterexample :
    search_knowledge_base
        ⟨some ⟨1, [[0]]⟩,
          some [⟨("k8s.md").toList, 0, 0, [], ("kubernetes pod basics").toList, 21⟩],
          none, none⟩
        ("kubernetes pod").toList 3 = [] := rfl

/-- C2 (amended): when no embedding model is available,
`search_knowledge_base` returns the empty result list — the degraded
lexical-scoring mode described by the spec is not implemented in
src/app.py. -/
theorem c2_degraded_mode_returns_empty (a : Assistant) (query : List Char)
    (top_k : Nat) (h : a.embedding_model = none) :
    search_knowledge_base a query top_k = [] := by
  obtain ⟨oi, oc, om, oe⟩ := a
  cases oe with
  | some m => simp at h
  | none =>
    cases oi with
    | none => rfl
    | some ix =>
      cases oc with
      | none => rfl
      | some cs =>
        simp only [search_knowledge_base]
        split <;> rfl

theorem c2_degraded_mode_returns_empty_witness :
    search_knowledge_base ⟨none, none, none, none⟩ ("docker").toList 3 = [] :=
  c2_degraded_mode_returns_empty ⟨none, none, none, none⟩ (("docker").toList)
    3 rfl

/-- C5: a successful `build_index` run over documents yielding N chunks
persists a FAISS index with exactly N vectors and a chunk-record list
with exactly N entries (N being the total chunk count over all
documents), and the vector at position i is the encoding of the content
of the chunk record at position i. -/
theorem c5_positional_correspondence (enc : List Char → Emb)
    (documents sources : List (List Char)) (now : List Char)
    (dim cs ov : Nat) (r : BuildResult)
    (h : build_index enc documents sources now dim cs ov = some r) :
    r.index.ntotal = r.chunk_metadata.length ∧
      r.chunk_metadata.length =
        ((documents.zip sources).map
          (fun p => (chunk_document p.1 cs ov).length)).sum ∧
      ∀ i, r.index.vectors.get? i =
        (r.chunk_metadata.get? i).map (fun m => enc m.content) := by
  unfold build_index at h
  split at h
  · exact absurd h (by simp)
  · split at h
    · exact absurd h (by simp)
    · injection h with h
      subst h
      refine ⟨?_, ?_, ?_⟩
      · simp [FaissFlatIndex.ntotal, build_all_chunks, build_chunk_metadata]
      · simp only [build_chunk_metadata, List.length_map]
        exact build_pairs_length _ cs ov
      · intro i
        simp only [build_all_chunks, build_chunk_metadata, List.get?_map]
        cases hp : (build_pairs (documents.zip sources) cs ov).get? i with
        | none => rfl
        | some p =>
          have hc := build_pairs_content (documents.zip sources) cs ov p
            (List.get?_mem hp)
          simp [hc]

theorem c5_positional_correspondence_witness :
    demo_build_result.index.ntotal = demo_build_result.chunk_metadata.length :=
  (c5_positional_correspondence demo_enc [("hello").toList] [("a.md").toList]
    (("2026-10-12").toList) 1 800 150 demo_build_result rfl).1

/-- C8: when any of the three persisted artifacts is absent,
`_auto_load_database` returns `False`, leaves the index, chunk list and
metadata unset (as initialised in `__init__`), and the missing-database
report (both the loader error and the main-page error shown before
`st.stop()`) is distinct from the empty-search-result message. -/
theorem c8_missing_artifacts_not_loaded (fs : FileSystem) (a : Assistant)
    (hi : a.index = none) (hc : a.chunks = none) (hm : a.metadata = none)
    (habs : fs.faiss_index_file = none ∨ fs.chunks_file = none ∨
      fs.metadata_file = none) :
    (auto_load_database fs a).ok = false ∧
      (auto_load_database fs a).state.index = none ∧
      (auto_load_database fs a).state.chunks = none ∧
      (auto_load_database fs a).state.metadata = none ∧
      vector_db_not_found_error ∈ (auto_load_database fs a).messages ∧
      vector_db_not_found_error ≠ no_results_warning ∧
      knowledge_base_not_loaded_error ≠ no_results_warning := by
  obtain ⟨f1, f2, f3⟩ := fs
  have hfail : auto_load_database ⟨f1, f2, f3⟩ a =
      { ok := false, state := a,
        messages := [vector_db_not_found_error, run_index_builder_info] } := by
    rcases habs with h | h | h
    · rw [show f1 = none from h]
      rfl
    · rw [show f2 = none from h]
      cases f1 <;> rfl
    · rw [show f3 = none from h]
      cases f1 <;> cases f2 <;> rfl
  refine ⟨by rw [hfail], by rw [hfail]; exact hi, by rw [hfail]; exact hc,
    by rw [hfail]; exact hm, by rw [hfail]; exact List.mem_cons_self _ _,
    by decide, by decide⟩

theorem c8_missing_artifacts_not_loaded_witness :
    (auto_load_database ⟨some ⟨1, []⟩, none, none⟩
      ⟨none, none, none, none⟩).ok = false :=
  (c8_missing_artifacts_not_loaded ⟨some ⟨1, []⟩, none, none⟩
    ⟨none, none, none, none⟩ rfl rfl rfl (Or.inr (Or.inl rfl))).1

/-- C9: with an API key present, every collaborator failure (non-200
status, timeout, or exception) makes `generate_cloudops_answer` return
the templated fallback summary — a total function, so no exception
reaches the caller; the fallback contains every retrieved chunk's source
filename, and with zero retrieved chunks it is the text stating that no
comprehensive answer could be generated. -/
theorem c9_fallback_on_collaborator_failure (key query : List Char)
    (chunks : List ChunkMeta) (resp : CollabResponse)
    (hf : is_api_failure resp = true) :
    generate_cloudops_answer (some key) query chunks resp =
        some (generate_fallback_answer query chunks) ∧
      (∀ c ∈ chunks, ∃ u v,
        generate_fallback_answer query chunks = u ++ c.source_file ++ v) ∧
      (chunks = [] →
        generate_fallback_answer query chunks = no_answer_text query) := by
  refine ⟨?_, ?_, ?_⟩
  · cases resp with
    | success a => simp [is_api_failure] at hf
    | httpError s => rfl
    | timeoutErr => rfl
    | requestErr m => rfl
  · intro c hc
    cases chunks with
    | nil => exact absurd hc (List.not_mem_nil c)
    | cons c0 cr =>
      have hmem : c.source_file ∈ (c0 :: cr).map (fun x => x.source_file) :=
        List.mem_map_of_mem _ hc
      unfold generate_fallback_answer
      rw [if_neg (by simp)]
      exact sub_append_right _ _ _ (sub_append_right _ _ _
        (sub_append_right _ _ _ (sub_append_left _ _ _
          (join_sources_mem _ _ hmem))))
  · intro h
    subst h
    rfl

theorem c9_fallback_on_collaborator_failure_witness :
    generate_cloudops_answer (some ("k").toList) ("pods").toList
        [⟨("a.md").toList, 0, 0, [], ("x").toList, 1⟩] CollabResponse.timeoutErr =
      some (generate_fallback_answer ("pods").toList
        [⟨("a.md").toList, 0, 0, [], ("x").toList, 1⟩]) :=
  (c9_fallback_on_collaborator_failure (("k").toList) (("pods").toList)
    [⟨("a.md").toList, 0, 0, [], ("x").toList, 1⟩] CollabResponse.timeoutErr
    rfl).1

/-- C10: under the precondition that the loaded index's vector count
equals the number of loaded chunk records, every index returned by the
FAISS search with `k = min(top_k, len(chunks))` lies in
`[0, len(chunks))` — the `-1` sentinel padding never appears since
`k ≤ ntotal` — so every `self.chunks[idx]` lookup in
`search_knowledge_base` is in-bounds and the result has exactly `k`
entries. -/
theorem c10_search_indices_in_bounds (ix : FaissFlatIndex)
    (cs : List ChunkMeta) (md : Option Metadata) (m : List Char → Emb)
    (query : List Char) (top_k : Nat)
    (hN : ix.ntotal = cs.length) (hne : cs ≠ []) :
    (∀ idx ∈ faiss_search ix (m query) (min top_k cs.length),
        0 ≤ idx ∧ idx < (cs.length : Int)) ∧
      (search_knowledge_base ⟨some ix, some cs, md, some m⟩ query top_k).length =
        min top_k cs.length := by
  have hk : min top_k cs.length ≤ ix.ntotal := by
    rw [hN]
    exact min_le_right _ _
  have hbound : ∀ idx ∈ faiss_search ix (m query) (min top_k cs.length),
      0 ≤ idx ∧ idx < (cs.length : Int) := by
    intro idx hidx
    have h := faiss_search_mem hk idx hidx
    rwa [hN] at h
  refine ⟨hbound, ?_⟩
  have hemp : cs.isEmpty = false := by
    cases cs with
    | nil => exact absurd rfl hne
    | cons a t => rfl
  simp only [search_knowledge_base, hemp, Bool.false_eq_true, if_false]
  rw [length_filterMap_of_isSome _ _ ?_, faiss_search_length]
  intro idx hidx
  obtain ⟨h0, hlt⟩ := hbound idx hidx
  rw [if_pos hlt]
  unfold pyIndex
  rw [if_pos h0]
  cases hg : cs.get? idx.toNat with
  | none =>
    rw [List.get?_eq_none] at hg
    omega
  | some c => rfl

theorem c10_search_indices_in_bounds_witness :
    (search_knowledge_base
      ⟨some ⟨1, [[0], [1]]⟩,
        some [⟨("a.md").toList, 0, 0, [], ("x").toList, 1⟩,
          ⟨("b.md").toList, 0, 1, [], ("y").toList, 1⟩],
        none, some (fun _ => [0])⟩ ("q").toList 3).length = min 3 2 :=
  (c10_search_indices_in_bounds ⟨1, [[0], [1]]⟩
    [⟨("a.md").toList, 0, 0, [], ("x").toList, 1⟩,
      ⟨("b.md").toList, 0, 1, [], ("y").toList, 1⟩]
    none (fun _ => [0]) (("q").toList) 3 rfl (List.cons_ne_nil _ _)).2

end CloudOps
